import Mathlib

/-!
Verification of the slide-puzzle engine in `main.py`.

The `Board` class is embedded shallowly: the Python dict `tiles` (keys: the
grid coordinates `(col, row)`, values: tile identifiers) becomes a total
function `Nat × Nat → Nat`, read and written only at grid coordinates, and
`blank_xy` a pair of naturals.  The Python int test `blank_xy[0] - 1 >= 0`
becomes `1 ≤ blank_xy.1` over `Nat`.  The shuffle loop is modelled as a
step relation parametrised by the move chosen at each iteration (standing
for `random.choice`), together with an executable driver used to exhibit
concrete terminated runs.
-/

namespace SlidePuzzle

def TILES_PER_SIDE : Nat := 4

def SHUFFLE : Nat := 40

structure Board where
  tiles : Nat × Nat → Nat
  blank_xy : Nat × Nat

/-- The tile layout written by `Board.__init__` before shuffling:
`tiles[(col, row)] = row * TILES_PER_SIDE + col`. -/
def initTiles : Nat × Nat → Nat := fun p => p.2 * TILES_PER_SIDE + p.1

/-- The board as built by `Board.__init__` just before `self.shuffle()` runs:
solved layout, blank at the bottom-right corner. -/
def initBoard : Board :=
  { tiles := initTiles
    blank_xy := (TILES_PER_SIDE - 1, TILES_PER_SIDE - 1) }

/-- `Board.get_valid_moves`: the four neighbour candidates of the blank,
appended in source order (left, right, up, down), each guarded by its
bounds check. -/
def Board.get_valid_moves (b : Board) : List (Nat × Nat) :=
  (if 1 ≤ b.blank_xy.1 then [(b.blank_xy.1 - 1, b.blank_xy.2)] else []) ++
  (if b.blank_xy.1 + 1 < TILES_PER_SIDE then [(b.blank_xy.1 + 1, b.blank_xy.2)] else []) ++
  (if 1 ≤ b.blank_xy.2 then [(b.blank_xy.1, b.blank_xy.2 - 1)] else []) ++
  (if b.blank_xy.2 + 1 < TILES_PER_SIDE then [(b.blank_xy.1, b.blank_xy.2 + 1)] else [])

/-- `Board.move_tile`: read the tile at `xy`, write the blank identifier
`N*N - 1` at `xy`, write the read tile at the old blank position, and move
`blank_xy` to `xy`. -/
def Board.move_tile (b : Board) (xy : Nat × Nat) : Board :=
  { tiles :=
      Function.update
        (Function.update b.tiles xy (TILES_PER_SIDE * TILES_PER_SIDE - 1))
        b.blank_xy (b.tiles xy)
    blank_xy := xy }

/-- `Board.is_game_won`: every grid position holds its solved identifier. -/
def Board.is_game_won (b : Board) : Bool :=
  (List.range TILES_PER_SIDE).all fun col =>
    (List.range TILES_PER_SIDE).all fun row =>
      b.tiles (col, row) == row * TILES_PER_SIDE + col

/-- The local state of `Board.shuffle`: the board being scrambled, the
`previous_blank_xy` variable and the `moves_nb` counter. -/
structure ShuffleState where
  board : Board
  previous_blank_xy : Nat × Nat
  moves_nb : Nat

/-- State on entry to the `while` loop of `Board.shuffle` when called from
`Board.__init__`. -/
def initShuffleState : ShuffleState :=
  { board := initBoard
    previous_blank_xy := initBoard.blank_xy
    moves_nb := 0 }

/-- The `while` condition of `Board.shuffle`:
`moves_nb < SHUFFLE or self.blank_xy != (N-1, N-1)`. -/
def shuffleCond (s : ShuffleState) : Bool :=
  decide (s.moves_nb < SHUFFLE) ||
  decide (s.board.blank_xy ≠ (TILES_PER_SIDE - 1, TILES_PER_SIDE - 1))

/-- The candidate list the loop body draws from: `get_valid_moves()` with the
first occurrence of `previous_blank_xy` popped when present
(`valid_moves.pop(valid_moves.index(previous_blank_xy))`). -/
def shuffleCandidates (s : ShuffleState) : List (Nat × Nat) :=
  (s.board.get_valid_moves).erase s.previous_blank_xy

/-- One iteration of the loop body once `random.choice` has produced `move`:
`previous_blank_xy` is set to the current blank, the move is applied, the
counter incremented. -/
def shuffleStep (s : ShuffleState) (move : Nat × Nat) : ShuffleState :=
  { board := s.board.move_tile move
    previous_blank_xy := s.board.blank_xy
    moves_nb := s.moves_nb + 1 }

/-- `ShuffleSeq s n t`: starting from `s`, `n` iterations of the shuffle loop
body can run (the guard true before each, the chosen move drawn from the
candidate list) and leave the state at `t`. -/
inductive ShuffleSeq : ShuffleState → Nat → ShuffleState → Prop where
  | refl (s : ShuffleState) : ShuffleSeq s 0 s
  | head {s : ShuffleState} {n : Nat} {t : ShuffleState} {m : Nat × Nat}
      (hc : shuffleCond s = true) (hm : m ∈ shuffleCandidates s)
      (h : ShuffleSeq (shuffleStep s m) n t) : ShuffleSeq s (n + 1) t

/-- Executable check that a given list of moves is a legal prefix of a run of
the shuffle loop from `s`: the guard holds and each move is a member of the
candidate list at its turn. -/
def okRun : List (Nat × Nat) → ShuffleState → Bool
  | [], _ => true
  | m :: ms, s =>
      shuffleCond s && decide (m ∈ shuffleCandidates s) && okRun ms (shuffleStep s m)

/-- Executable driver: apply a list of moves with `shuffleStep`. -/
def runSteps : List (Nat × Nat) → ShuffleState → ShuffleState
  | [], s => s
  | m :: ms, s => runSteps ms (shuffleStep s m)

/-- Forty concrete moves cycling the blank (3,3) → (2,3) → (2,2) → (3,2) →
(3,3) ten times; a legal terminated run of the shuffle loop. -/
def ms40 : List (Nat × Nat) :=
  (List.replicate 10 [((2 : Nat), (3 : Nat)), (2, 2), (3, 2), (3, 3)]).flatten

/-- The sub-state of `Game` that `Game.update` touches: the board, the
`command` produced by `event_get` (`none` models Python's `None`), and the
`game_won` flag. -/
structure Game where
  board : Board
  command : Option (Nat × Nat)
  game_won : Bool

/-- `Game.update`: apply `command` via `move_tile` exactly when it is a member
of `get_valid_moves()` (Python's `None` is never a member of a list of
coordinate tuples), then set `game_won` when the board reports a win. -/
def Game.update (g : Game) : Game :=
  let b :=
    match g.command with
    | some p => if p ∈ g.board.get_valid_moves then g.board.move_tile p else g.board
    | none => g.board
  { board := b
    command := g.command
    game_won := if b.is_game_won then true else g.game_won }

/-- The sixteen grid positions, in the column-major order of the
`Board.__init__` loops. -/
def gridList : List (Nat × Nat) :=
  [(0, 0), (0, 1), (0, 2), (0, 3),
   (1, 0), (1, 1), (1, 2), (1, 3),
   (2, 0), (2, 1), (2, 2), (2, 3),
   (3, 0), (3, 1), (3, 2), (3, 3)]

/-- `p` is an orthogonal neighbour of `q` (distance one in exactly one
coordinate). -/
def OrthNeighbor (p q : Nat × Nat) : Prop :=
  (p.1 + 1 = q.1 ∧ p.2 = q.2) ∨ (q.1 + 1 = p.1 ∧ p.2 = q.2) ∨
  (p.1 = q.1 ∧ p.2 + 1 = q.2) ∨ (p.1 = q.1 ∧ q.2 + 1 = p.2)

instance (p q : Nat × Nat) : Decidable (OrthNeighbor p q) := by
  unfold OrthNeighbor; infer_instance

/-- A corner of the 4×4 grid. -/
def isCorner (p : Nat × Nat) : Bool :=
  (decide (p.1 = 0) || decide (p.1 = TILES_PER_SIDE - 1)) &&
  (decide (p.2 = 0) || decide (p.2 = TILES_PER_SIDE - 1))

/-- A non-corner edge cell of the 4×4 grid. -/
def isEdge (p : Nat × Nat) : Bool :=
  ((decide (p.1 = 0) || decide (p.1 = TILES_PER_SIDE - 1)) ^^
   (decide (p.2 = 0) || decide (p.2 = TILES_PER_SIDE - 1)))

/-- The bijection invariant: the grid's multiset of tile identifiers is
exactly `{0, …, 15}`, the blank position is a grid position, and it holds the
blank identifier `15`. -/
def BoardInv (b : Board) : Prop :=
  (gridList.map b.tiles).Perm (List.range (TILES_PER_SIDE * TILES_PER_SIDE)) ∧
  b.blank_xy ∈ gridList ∧
  b.tiles b.blank_xy = TILES_PER_SIDE * TILES_PER_SIDE - 1

instance (b : Board) : Decidable (BoardInv b) := by
  unfold BoardInv; infer_instance

/-- Boards reachable through the public operations: a board produced by
construction (solved layout, then a terminated run of the shuffle loop),
followed by any number of `move_tile` calls on members of
`get_valid_moves()`. -/
inductive ReachableBoard : Board → Prop where
  | shuffled (n : Nat) (s : ShuffleState)
      (h : ShuffleSeq initShuffleState n s) (hstop : shuffleCond s = false) :
      ReachableBoard s.board
  | move (b : Board) (m : Nat × Nat)
      (h : ReachableBoard b) (hm : m ∈ b.get_valid_moves) :
      ReachableBoard (b.move_tile m)

/-- The solved board used as a concrete test state (same layout as
`initBoard`). -/
def solvedBoard : Board := initBoard

/-- The solved layout with the identifiers of positions `p` and `q`
swapped. -/
def solvedSwap (p q : Nat × Nat) : Board :=
  { tiles := Function.update (Function.update initTiles p (initTiles q)) q (initTiles p)
    blank_xy := (TILES_PER_SIDE - 1, TILES_PER_SIDE - 1) }

/-! ### Helper lemmas -/

theorem perm_cons_erase_beq {α : Type} [BEq α] [LawfulBEq α] {a : α} :
    ∀ {l : List α}, a ∈ l → l.Perm (a :: l.erase a) := by
  intro l h
  induction l with
  | nil => cases h
  | cons b t ih =>
      rw [List.erase_cons]
      by_cases hba : b = a
      · subst hba
        simp
      · have hba' : (b == a) = false := beq_false_of_ne hba
        rw [if_neg (by simp [hba])]
        have hat : a ∈ t := by
          rcases List.mem_cons.mp h with h' | h'
          · exact absurd h'.symm hba
          · exact h'
        exact (List.Perm.cons b (ih hat)).trans (List.Perm.swap a b _)

theorem gridList_nodup : gridList.Nodup := by decide

theorem mem_gridList {p : Nat × Nat} :
    p ∈ gridList ↔ p.1 < TILES_PER_SIDE ∧ p.2 < TILES_PER_SIDE := by
  obtain ⟨x, y⟩ := p
  constructor
  · intro h
    fin_cases h <;> simp [TILES_PER_SIDE]
  · rintro ⟨hx, hy⟩
    simp only [TILES_PER_SIDE] at hx hy
    interval_cases x <;> interval_cases y <;> simp [gridList]

theorem valid_moves_facts (b : Board) (hb : b.blank_xy ∈ gridList) :
    (∀ m ∈ b.get_valid_moves, m ∈ gridList ∧ OrthNeighbor m b.blank_xy ∧ m ≠ b.blank_xy) ∧
    (∀ p ∈ gridList, OrthNeighbor p b.blank_xy → p ∈ b.get_valid_moves) ∧
    2 ≤ b.get_valid_moves.length ∧
    b.get_valid_moves.length =
      (if isCorner b.blank_xy then 2 else if isEdge b.blank_xy then 3 else 4) ∧
    b.get_valid_moves.Nodup := by
  obtain ⟨t, q⟩ := b
  simp only [Board.get_valid_moves] at *
  fin_cases hb <;>
    exact ⟨by decide, by decide, by decide, by rfl, by decide⟩

theorem valid_moves_nodup (b : Board) : b.get_valid_moves.Nodup := by
  obtain ⟨t, x, y⟩ := b
  simp only [Board.get_valid_moves, TILES_PER_SIDE]
  split_ifs <;>
    simp_all [List.nodup_append, List.nodup_cons, List.mem_cons, List.mem_singleton,
      List.disjoint_left, Prod.ext_iff] <;>
    omega

theorem mem_valid_moves_iff (b : Board) (m : Nat × Nat) :
    m ∈ b.get_valid_moves ↔
      (1 ≤ b.blank_xy.1 ∧ m = (b.blank_xy.1 - 1, b.blank_xy.2)) ∨
      (b.blank_xy.1 + 1 < TILES_PER_SIDE ∧ m = (b.blank_xy.1 + 1, b.blank_xy.2)) ∨
      (1 ≤ b.blank_xy.2 ∧ m = (b.blank_xy.1, b.blank_xy.2 - 1)) ∨
      (b.blank_xy.2 + 1 < TILES_PER_SIDE ∧ m = (b.blank_xy.1, b.blank_xy.2 + 1)) := by
  simp only [Board.get_valid_moves, List.mem_append, List.mem_ite_nil_right,
    List.mem_singleton]
  tauto

theorem valid_moves_ne_blank (b : Board) : ∀ m ∈ b.get_valid_moves, m ≠ b.blank_xy := by
  intro m hm
  rcases (mem_valid_moves_iff b m).mp hm with ⟨h, rfl⟩ | ⟨h, rfl⟩ | ⟨h, rfl⟩ | ⟨h, rfl⟩ <;>
    simp [Prod.ext_iff] <;> omega

/-- Mapping a function whose values at two distinct grid positions have been
exchanged over the grid permutes the original value list. -/
theorem map_update_swap_perm (f : Nat × Nat → Nat) {a q : Nat × Nat} (v : Nat)
    (ha : a ∈ gridList) (hq : q ∈ gridList) (hne : a ≠ q) (hv : f q = v) :
    (gridList.map (Function.update (Function.update f a v) q (f a))).Perm
      (gridList.map f) := by
  set g := Function.update (Function.update f a v) q (f a) with hg
  have hq' : q ∈ gridList.erase a :=
    gridList_nodup.mem_erase_iff.mpr ⟨hne.symm, hq⟩
  have h1 : gridList.Perm (a :: gridList.erase a) := perm_cons_erase_beq ha
  have h2 : (gridList.erase a).Perm (q :: (gridList.erase a).erase q) :=
    perm_cons_erase_beq hq'
  have hG : gridList.Perm (a :: q :: (gridList.erase a).erase q) :=
    h1.trans (h2.cons a)
  have hga : g a = v := by
    rw [hg, Function.update_noteq hne, Function.update_same]
  have hgq : g q = f a := by
    rw [hg, Function.update_same]
  have hrest : ((gridList.erase a).erase q).map g = ((gridList.erase a).erase q).map f := by
    apply List.map_congr_left
    intro x hx
    have hxq : x ≠ q ∧ x ∈ gridList.erase a :=
      (gridList_nodup.erase a).mem_erase_iff.mp hx
    have hxa : x ≠ a ∧ x ∈ gridList := gridList_nodup.mem_erase_iff.mp hxq.2
    rw [hg, Function.update_noteq hxq.1, Function.update_noteq hxa.1]
  refine ((hG.map g).trans ?_).trans (hG.map f).symm
  show (g a :: g q :: ((gridList.erase a).erase q).map g).Perm
    (f a :: f q :: ((gridList.erase a).erase q).map f)
  rw [hga, hgq, hrest, ← hv]
  exact List.Perm.swap _ _ _

theorem boardInv_init : BoardInv initBoard :=
  ⟨by decide, by decide, by decide⟩

/-- A legal `move_tile` call preserves the bijection invariant. -/
theorem boardInv_move_tile {b : Board} {m : Nat × Nat} (hb : BoardInv b)
    (hm : m ∈ b.get_valid_moves) : BoardInv (b.move_tile m) := by
  obtain ⟨hperm, hblank, hbval⟩ := hb
  have hmg : m ∈ gridList := ((valid_moves_facts b hblank).1 m hm).1
  have hne : m ≠ b.blank_xy := valid_moves_ne_blank b m hm
  refine ⟨?_, hmg, ?_⟩
  · have hswap :=
      map_update_swap_perm b.tiles (TILES_PER_SIDE * TILES_PER_SIDE - 1)
        hmg hblank hne hbval
    exact hswap.trans hperm
  · show (b.move_tile m).tiles (b.move_tile m).blank_xy = _
    simp only [Board.move_tile]
    rw [Function.update_noteq hne, Function.update_same]

theorem shuffleSeq_moves_nb {s : ShuffleState} {n : Nat} {t : ShuffleState}
    (h : ShuffleSeq s n t) : t.moves_nb = s.moves_nb + n := by
  induction h with
  | refl s => rfl
  | head hc hm h ih => simp only [shuffleStep] at ih; omega

theorem shuffleSeq_inv {s : ShuffleState} {n : Nat} {t : ShuffleState}
    (h : ShuffleSeq s n t) (hs : BoardInv s.board) : BoardInv t.board := by
  induction h with
  | refl s => exact hs
  | head hc hm h ih =>
      exact ih (boardInv_move_tile hs (List.erase_subset _ _ hm))

theorem okRun_sound : ∀ (ms : List (Nat × Nat)) (s : ShuffleState),
    okRun ms s = true → ShuffleSeq s ms.length (runSteps ms s) := by
  intro ms
  induction ms with
  | nil => exact fun s _ => ShuffleSeq.refl s
  | cons m ms ih =>
      intro s h
      simp only [okRun, Bool.and_eq_true, decide_eq_true_eq] at h
      obtain ⟨⟨hc, hm⟩, hrest⟩ := h
      exact ShuffleSeq.head hc hm (ih _ hrest)

theorem candidates_ne_nil {s : ShuffleState} (hb : s.board.blank_xy ∈ gridList) :
    shuffleCandidates s ≠ [] := by
  have h2 : 2 ≤ s.board.get_valid_moves.length := (valid_moves_facts _ hb).2.2.1
  have h1 : 1 ≤ (shuffleCandidates s).length := by
    unfold shuffleCandidates
    by_cases hmem : s.previous_blank_xy ∈ s.board.get_valid_moves
    · rw [List.length_erase_of_mem hmem]; omega
    · rw [List.erase_of_not_mem hmem]; omega
  intro hnil
  rw [hnil] at h1
  simp at h1

/-- Every board reachable through the public operations satisfies the
bijection invariant. -/
theorem reachable_inv {b : Board} (h : ReachableBoard b) : BoardInv b := by
  induction h with
  | shuffled n s hseq hstop => exact shuffleSeq_inv hseq boardInv_init
  | move b m hb hm ih => exact boardInv_move_tile ih hm

/-- Two distinct grid positions never hold the same identifier when the
grid's value list is a permutation of `{0, …, 15}`. -/
theorem tiles_value_injective {f : Nat × Nat → Nat}
    (hperm : (gridList.map f).Perm (List.range (TILES_PER_SIDE * TILES_PER_SIDE)))
    {p q : Nat × Nat} (hp : p ∈ gridList) (hq : q ∈ gridList) (hne : p ≠ q) :
    f p ≠ f q := by
  have hq' : q ∈ gridList.erase p := gridList_nodup.mem_erase_iff.mpr ⟨hne.symm, hq⟩
  have hG : gridList.Perm (p :: q :: (gridList.erase p).erase q) :=
    (perm_cons_erase_beq hp).trans ((perm_cons_erase_beq hq').cons p)
  have hnd : (f p :: f q :: ((gridList.erase p).erase q).map f).Nodup := by
    have h1 : (gridList.map f).Nodup := hperm.nodup_iff.mpr (List.nodup_range _)
    exact (hG.map f).nodup_iff.mp h1
  intro heq
  exact (List.nodup_cons.mp hnd).1 (by rw [heq]; exact List.mem_cons_self _ _)

theorem is_game_won_iff (b : Board) :
    b.is_game_won = true ↔
      ∀ col row, col < TILES_PER_SIDE → row < TILES_PER_SIDE →
        b.tiles (col, row) = row * TILES_PER_SIDE + col := by
  simp only [Board.is_game_won, List.all_eq_true, List.mem_range, beq_iff_eq]
  constructor
  · intro h col row hc hr
    exact h col hc row hr
  · intro h col hc row hr
    exact h col row hc hr

theorem initTiles_inj {p q : Nat × Nat} (hp : p ∈ gridList) (hq : q ∈ gridList)
    (hne : p ≠ q) : initTiles p ≠ initTiles q := by
  obtain ⟨hp1, hp2⟩ := mem_gridList.mp hp
  obtain ⟨hq1, hq2⟩ := mem_gridList.mp hq
  obtain ⟨x, y⟩ := p
  obtain ⟨z, w⟩ := q
  simp only [TILES_PER_SIDE] at hp1 hp2 hq1 hq2
  intro h
  simp only [initTiles, TILES_PER_SIDE] at h
  have hcoords : x = z ∧ y = w := by omega
  exact hne (by simp [Prod.mk.injEq, hcoords.1, hcoords.2])

/-! ### Claim theorems -/

/-- Claim C1: for every Board state reachable via the public operations
(construction with shuffle, `move_tile` on a member of `get_valid_moves`),
`tiles` is a bijection from the 4×4 grid positions onto `{0, …, 15}` (the
grid's value list is a permutation of `{0, …, 15}`), the blank position is a
grid position holding identifier `15`, and it is the only grid position that
does. -/
theorem tiles_bijection_c1 {b : Board} (h : ReachableBoard b) :
    (gridList.map b.tiles).Perm (List.range (TILES_PER_SIDE * TILES_PER_SIDE)) ∧
    b.blank_xy ∈ gridList ∧
    b.tiles b.blank_xy = TILES_PER_SIDE * TILES_PER_SIDE - 1 ∧
    (∀ p : Nat × Nat, p.1 < TILES_PER_SIDE → p.2 < TILES_PER_SIDE →
      b.tiles p = TILES_PER_SIDE * TILES_PER_SIDE - 1 → p = b.blank_xy) := by
  obtain ⟨hperm, hblank, hval⟩ := reachable_inv h
  refine ⟨hperm, hblank, hval, ?_⟩
  intro p hp1 hp2 hpv
  by_contra hne
  exact tiles_value_injective hperm (mem_gridList.mpr ⟨hp1, hp2⟩) hblank hne
    (hpv.trans hval.symm)

theorem tiles_bijection_c1_witness :
    (gridList.map (runSteps ms40 initShuffleState).board.tiles).Perm
      (List.range (TILES_PER_SIDE * TILES_PER_SIDE)) ∧
    (runSteps ms40 initShuffleState).board.blank_xy ∈ gridList ∧
    (runSteps ms40 initShuffleState).board.tiles
      (runSteps ms40 initShuffleState).board.blank_xy =
      TILES_PER_SIDE * TILES_PER_SIDE - 1 := by
  have h := tiles_bijection_c1
    (ReachableBoard.shuffled _ _ (okRun_sound ms40 initShuffleState (by decide))
      (by decide))
  exact ⟨h.1, h.2.1, h.2.2.1⟩

/-- Claim C2: `Game.update` applies `move_tile` on the submitted position
exactly when that position is a member of `get_valid_moves()`; a non-member
submission is silently ignored and the board (its `tiles` and `blank_xy`)
is left unchanged. -/
theorem update_acceptance_c2 (g : Game) (p : Nat × Nat) (hc : g.command = some p) :
    (p ∈ g.board.get_valid_moves → (g.update).board = g.board.move_tile p) ∧
    (p ∉ g.board.get_valid_moves →
      (g.update).board = g.board ∧
      (g.update).board.tiles = g.board.tiles ∧
      (g.update).board.blank_xy = g.board.blank_xy) := by
  constructor
  · intro hmem
    simp [Game.update, hc, hmem]
  · intro hmem
    have hb : (g.update).board = g.board := by simp [Game.update, hc, hmem]
    exact ⟨hb, by rw [hb], by rw [hb]⟩

theorem update_acceptance_c2_witness :
    (Game.mk solvedBoard (some ((0 : Nat), (0 : Nat))) false).update.board =
      solvedBoard :=
  ((update_acceptance_c2 (Game.mk solvedBoard (some (0, 0)) false) (0, 0) rfl).2
    (by decide)).1

/-- Claim C3: on a Board satisfying the bijection invariant, `move_tile` at
an in-bounds orthogonal neighbour `p` of the blank swaps the identifier at
`p` with the blank: the old blank position receives the identifier that was
at `p`, position `p` receives `15`, `blank_xy` becomes `p`, every other
position keeps its identifier, and the invariant is preserved. -/
theorem move_tile_spec_c3 {b : Board} {p : Nat × Nat} (hinv : BoardInv b)
    (hp1 : p.1 < TILES_PER_SIDE) (hp2 : p.2 < TILES_PER_SIDE)
    (hnb : OrthNeighbor p b.blank_xy) :
    (b.move_tile p).tiles b.blank_xy = b.tiles p ∧
    (b.move_tile p).tiles p = TILES_PER_SIDE * TILES_PER_SIDE - 1 ∧
    (b.move_tile p).blank_xy = p ∧
    (∀ x : Nat × Nat, x ≠ p → x ≠ b.blank_xy →
      (b.move_tile p).tiles x = b.tiles x) ∧
    BoardInv (b.move_tile p) := by
  have hpg : p ∈ gridList := mem_gridList.mpr ⟨hp1, hp2⟩
  have hmem : p ∈ b.get_valid_moves :=
    (valid_moves_facts b hinv.2.1).2.1 p hpg hnb
  have hne : p ≠ b.blank_xy := valid_moves_ne_blank b p hmem
  refine ⟨?_, ?_, rfl, ?_, boardInv_move_tile hinv hmem⟩
  · simp only [Board.move_tile]
    rw [Function.update_same]
  · simp only [Board.move_tile]
    rw [Function.update_noteq hne, Function.update_same]
  · intro x hxp hxb
    simp only [Board.move_tile]
    rw [Function.update_noteq hxb, Function.update_noteq hxp]

theorem move_tile_spec_c3_witness :
    (solvedBoard.move_tile (2, 3)).tiles solvedBoard.blank_xy =
      solvedBoard.tiles (2, 3) ∧
    (solvedBoard.move_tile (2, 3)).tiles (2, 3) =
      TILES_PER_SIDE * TILES_PER_SIDE - 1 ∧
    (solvedBoard.move_tile (2, 3)).blank_xy = (2, 3) := by
  have h := @move_tile_spec_c3 solvedBoard (2, 3) (by decide) (by decide)
    (by decide) (by decide)
  exact ⟨h.1, h.2.1, h.2.2.1⟩

/-- Claim C4: `is_game_won` returns true iff every grid position `(col,row)`
holds `row*4+col`; it is true on the solved layout and false on any layout
obtained from solved by swapping the identifiers of two distinct grid
positions. -/
theorem is_game_won_spec_c4 (b : Board) :
    (b.is_game_won = true ↔
      ∀ col row, col < TILES_PER_SIDE → row < TILES_PER_SIDE →
        b.tiles (col, row) = row * TILES_PER_SIDE + col) ∧
    solvedBoard.is_game_won = true ∧
    (∀ p q : Nat × Nat, p ∈ gridList → q ∈ gridList → p ≠ q →
      (solvedSwap p q).is_game_won = false) := by
  refine ⟨is_game_won_iff b, by decide, ?_⟩
  intro p q hp hq hne
  cases hwon : (solvedSwap p q).is_game_won with
  | false => rfl
  | true =>
      exfalso
      obtain ⟨hp1, hp2⟩ := mem_gridList.mp hp
      have hval := (is_game_won_iff (solvedSwap p q)).mp hwon p.1 p.2 hp1 hp2
      have hvp : (solvedSwap p q).tiles p = initTiles q := by
        simp only [solvedSwap]
        rw [Function.update_noteq hne, Function.update_same]
      apply initTiles_inj hq hp hne.symm
      rw [← hvp]
      show (solvedSwap p q).tiles p = initTiles p
      rw [hval]
      rfl

theorem is_game_won_spec_c4_witness :
    (solvedSwap (0, 0) (1, 0)).is_game_won = false :=
  (is_game_won_spec_c4 solvedBoard).2.2 (0, 0) (1, 0) (by decide) (by decide)
    (by decide)

/-- Claim C5: whenever the shuffle loop exits, the number of loop iterations
(= `move_tile` calls) is at least `SHUFFLE = 40`, the counter `moves_nb`
is at least 40, and the blank is back at the bottom-right corner. -/
theorem shuffle_exit_c5 {n : Nat} {sf : ShuffleState}
    (h : ShuffleSeq initShuffleState n sf) (hstop : shuffleCond sf = false) :
    SHUFFLE ≤ n ∧ SHUFFLE ≤ sf.moves_nb ∧
    sf.board.blank_xy = (TILES_PER_SIDE - 1, TILES_PER_SIDE - 1) := by
  have hmn : sf.moves_nb = n := by
    have := shuffleSeq_moves_nb h
    simpa [initShuffleState] using this
  simp only [shuffleCond, Bool.or_eq_false_iff, decide_eq_false_iff_not,
    not_lt, not_not] at hstop
  exact ⟨by omega, by omega, hstop.2⟩

theorem shuffle_exit_c5_witness :
    SHUFFLE ≤ ms40.length ∧
    SHUFFLE ≤ (runSteps ms40 initShuffleState).moves_nb ∧
    (runSteps ms40 initShuffleState).board.blank_xy =
      (TILES_PER_SIDE - 1, TILES_PER_SIDE - 1) :=
  shuffle_exit_c5 (okRun_sound ms40 initShuffleState (by decide)) (by decide)

/-- Claim C6: for a blank inside the 4×4 grid, `get_valid_moves()` returns
exactly the in-bounds orthogonal neighbours of the blank — never the blank
itself nor an out-of-bounds coordinate — and its length is 2 at a corner,
3 on a non-corner edge, 4 in the interior.  The function is a pure query:
in this embedding it is a function of the board alone. -/
theorem valid_moves_spec_c6 (b : Board)
    (hb1 : b.blank_xy.1 < TILES_PER_SIDE) (hb2 : b.blank_xy.2 < TILES_PER_SIDE) :
    (∀ p ∈ b.get_valid_moves,
      p.1 < TILES_PER_SIDE ∧ p.2 < TILES_PER_SIDE ∧
      OrthNeighbor p b.blank_xy ∧ p ≠ b.blank_xy) ∧
    (∀ p : Nat × Nat, p.1 < TILES_PER_SIDE → p.2 < TILES_PER_SIDE →
      OrthNeighbor p b.blank_xy → p ∈ b.get_valid_moves) ∧
    b.get_valid_moves.length =
      (if isCorner b.blank_xy then 2 else if isEdge b.blank_xy then 3 else 4) := by
  have hg : b.blank_xy ∈ gridList := mem_gridList.mpr ⟨hb1, hb2⟩
  obtain ⟨h1, h2, _, h4, _⟩ := valid_moves_facts b hg
  refine ⟨?_, ?_, h4⟩
  · intro p hp
    obtain ⟨hpg, hnb, hne⟩ := h1 p hp
    obtain ⟨a1, a2⟩ := mem_gridList.mp hpg
    exact ⟨a1, a2, hnb, hne⟩
  · intro p q1 q2 hnb
    exact h2 p (mem_gridList.mpr ⟨q1, q2⟩) hnb

theorem valid_moves_spec_c6_witness :
    solvedBoard.get_valid_moves.length =
      (if isCorner solvedBoard.blank_xy then 2
       else if isEdge solvedBoard.blank_xy then 3 else 4) :=
  (valid_moves_spec_c6 solvedBoard (by decide) (by decide)).2.2

/-- Claim C7: on a Board satisfying the bijection invariant, a legal move
followed by the move at the old blank position restores `tiles` and
`blank_xy` exactly (legal moves are reversible). -/
theorem move_involution_c7 {b : Board} {p : Nat × Nat} (hinv : BoardInv b)
    (hp : p ∈ b.get_valid_moves) :
    ((b.move_tile p).move_tile b.blank_xy).tiles = b.tiles ∧
    ((b.move_tile p).move_tile b.blank_xy).blank_xy = b.blank_xy := by
  have hne : p ≠ b.blank_xy := valid_moves_ne_blank b p hp
  refine ⟨?_, rfl⟩
  have ht1q : (b.move_tile p).tiles b.blank_xy = b.tiles p := by
    simp only [Board.move_tile]
    rw [Function.update_same]
  funext x
  show Function.update
      (Function.update (b.move_tile p).tiles b.blank_xy
        (TILES_PER_SIDE * TILES_PER_SIDE - 1))
      p ((b.move_tile p).tiles b.blank_xy) x = b.tiles x
  rw [ht1q]
  by_cases hxp : x = p
  · subst hxp
    rw [Function.update_same]
  · rw [Function.update_noteq hxp]
    by_cases hxq : x = b.blank_xy
    · subst hxq
      rw [Function.update_same]
      exact hinv.2.2.symm
    · rw [Function.update_noteq hxq]
      show Function.update
          (Function.update b.tiles p (TILES_PER_SIDE * TILES_PER_SIDE - 1))
          b.blank_xy (b.tiles p) x = b.tiles x
      rw [Function.update_noteq hxq, Function.update_noteq hxp]

theorem move_involution_c7_witness :
    ((solvedBoard.move_tile (2, 3)).move_tile solvedBoard.blank_xy).tiles =
      solvedBoard.tiles ∧
    ((solvedBoard.move_tile (2, 3)).move_tile solvedBoard.blank_xy).blank_xy =
      solvedBoard.blank_xy :=
  @move_involution_c7 solvedBoard (2, 3) (by decide) (by decide)

/-- Claim C8: a move drawn from the shuffle loop's candidate list is never
the position the blank occupied before the immediately preceding move
(`previous_blank_xy` is erased from the candidates first), and the loop body
updates `previous_blank_xy` to the current blank before applying the move. -/
theorem no_immediate_undo_c8 (s : ShuffleState) (m : Nat × Nat)
    (hm : m ∈ shuffleCandidates s) :
    m ≠ s.previous_blank_xy ∧
    (shuffleStep s m).previous_blank_xy = s.board.blank_xy := by
  refine ⟨?_, rfl⟩
  unfold shuffleCandidates at hm
  exact ((valid_moves_nodup s.board).mem_erase_iff.mp hm).1

theorem no_immediate_undo_c8_witness :
    ((2 : Nat), (3 : Nat)) ≠ initShuffleState.previous_blank_xy ∧
    (shuffleStep initShuffleState (2, 3)).previous_blank_xy =
      initShuffleState.board.blank_xy :=
  no_immediate_undo_c8 initShuffleState (2, 3) (by decide)

/-- Claim C9: in every iteration of the shuffle loop (every state reachable
by the loop from its entry state), the candidate list left after erasing
`previous_blank_xy` is non-empty, so `random.choice` is never applied to an
empty list. -/
theorem candidates_nonempty_c9 {n : Nat} {s : ShuffleState}
    (h : ShuffleSeq initShuffleState n s) : shuffleCandidates s ≠ [] := by
  have hinv : BoardInv s.board := shuffleSeq_inv h boardInv_init
  exact candidates_ne_nil hinv.2.1

theorem candidates_nonempty_c9_witness :
    shuffleCandidates initShuffleState ≠ [] :=
  candidates_nonempty_c9 (ShuffleSeq.refl initShuffleState)

/-- Claim C10: when no move is submitted on a tick (`command` is `None`),
`Game.update` leaves the board — its `tiles` and `blank_xy` — completely
unchanged: `None` never matches a coordinate in `get_valid_moves()`. -/
theorem update_none_noop_c10 (g : Game) (hc : g.command = none) :
    (g.update).board = g.board ∧
    (g.update).board.tiles = g.board.tiles ∧
    (g.update).board.blank_xy = g.board.blank_xy := by
  have hb : (g.update).board = g.board := by simp [Game.update, hc]
  exact ⟨hb, by rw [hb], by rw [hb]⟩

theorem update_none_noop_c10_witness :
    (Game.mk solvedBoard none false).update.board = solvedBoard ∧
    (Game.mk solvedBoard none false).update.board.tiles = solvedBoard.tiles ∧
    (Game.mk solvedBoard none false).update.board.blank_xy =
      solvedBoard.blank_xy :=
  update_none_noop_c10 (Game.mk solvedBoard none false) rfl

end SlidePuzzle
